import Mathlib

/-!
# Verification of the Herding-Cats-Rust maintenance scripts

A shallow embedding of the text-transformation scripts of the repository
(`add_logs.py`, `fix_build.py`, `fix_conflicts.py`, `fix_macro_path.py`,
`fix_macro_ident.py`, `fix_tool_windows.py`, `refactor_listviews.py`,
`refactor_modules.py`, `remove_logs.py`) over `List Char`, together with
proofs about them.

Python strings are modelled as `List Char`.  Python's `str.replace`,
`str.split`, the `in` operator, `str.find`, `str.strip`, `readlines`, and
the specific `re.sub` calls are modelled by executable functions below;
braces inside string literals are written with the escapes `\x7b` and
`\x7d`.
-/

namespace HerdingCats

/-- `isPre p l` is Python-style "l.startswith(p)": `p` is a prefix of `l`. -/
def isPre : List Char → List Char → Bool
  | [], _ => true
  | _ :: _, [] => false
  | a :: as, b :: bs => a = b && isPre as bs

/-- Python's `pat in txt` for strings: `pat` occurs as a contiguous substring. -/
def occursIn (pat : List Char) : List Char → Bool
  | [] => pat.isEmpty
  | c :: rest => isPre pat (c :: rest) || occursIn pat rest

/-- Python's `txt.find(pat)` (as an `Option`): index of the leftmost occurrence. -/
def firstMatchIdx (pat : List Char) : List Char → Option Nat
  | [] => if pat.isEmpty then some 0 else none
  | c :: rest =>
    if isPre pat (c :: rest) then some 0
    else (firstMatchIdx pat rest).map (· + 1)

/-- Generic one-pass substitution engine: `m suffix` returns the length of a
match beginning at this position (our matchers always return a positive
length), `repl` the replacement.  The `skip` counter carries the remainder of
a match that has already been consumed, which keeps the recursion structural.
This is the semantics shared by Python's `str.replace` and by `re.sub` with
the deterministic patterns used in these scripts: scan left to right,
replace each non-overlapping leftmost match. -/
def reSubAux (m : List Char → Option Nat) (repl : List Char) :
    Nat → List Char → List Char
  | _ + 1, [] => []
  | skip + 1, _ :: rest => reSubAux m repl skip rest
  | 0, [] => []
  | 0, c :: rest =>
    match m (c :: rest) with
    | some (n + 1) => repl ++ reSubAux m repl n rest
    | _ => c :: reSubAux m repl 0 rest

/-- Run the substitution engine from a fresh position. -/
def reSubWith (m : List Char → Option Nat) (repl : List Char) (l : List Char) :
    List Char :=
  reSubAux m repl 0 l

/-- Matcher for a fixed literal pattern (Python `str.replace`). -/
def litMatcher (pat : List Char) (l : List Char) : Option Nat :=
  if !pat.isEmpty && isPre pat l then some pat.length else none

/-- Python's `txt.replace(pat, repl)`: replace every non-overlapping
occurrence of `pat`, scanning left to right. -/
def replaceSub (pat repl l : List Char) : List Char :=
  reSubWith (litMatcher pat) repl l

/-- Fuelled version of Python's `txt.split(sep)` (`sep` non-empty):
repeatedly cut at the leftmost occurrence of `sep`. -/
def splitOnSubF (sep : List Char) : Nat → List Char → List (List Char)
  | 0, l => [l]
  | fuel + 1, l =>
    match firstMatchIdx sep l with
    | none => [l]
    | some i => l.take i :: splitOnSubF sep fuel (l.drop (i + sep.length))

/-- Python's `txt.split(sep)` for a non-empty separator. -/
def splitOnSub (sep l : List Char) : List (List Char) :=
  splitOnSubF sep (l.length + 1) l

/-- Rejoin the pieces produced by `splitOnSub` (Python `sep.join(parts)`). -/
def joinWith (sep : List Char) : List (List Char) → List Char
  | [] => []
  | [p] => p
  | p :: ps => p ++ sep ++ joinWith sep ps

/-- Python's `f.readlines()` on the loaded text: split after every newline,
keeping the newline; a final piece without a newline is kept if non-empty. -/
def splitLinesAux (acc : List Char) : List Char → List (List Char)
  | [] => if acc.isEmpty then [] else [acc.reverse]
  | c :: rest =>
    if c = '\n' then (c :: acc).reverse :: splitLinesAux [] rest
    else splitLinesAux (c :: acc) rest

/-- Split a text into its lines, each keeping its trailing newline. -/
def splitLines (l : List Char) : List (List Char) :=
  splitLinesAux [] l

/-- Python's `f.writelines(lines)` content: concatenation of all lines. -/
def concatAll : List (List Char) → List Char
  | [] => []
  | l :: ls => l ++ concatAll ls

/-- Python's `str` whitespace (the characters stripped by `str.strip`). -/
def isPyWS (c : Char) : Bool :=
  c = ' ' || c = '\x09' || c = '\x0a' || c = '\x0d' || c = '\x0b' || c = '\x0c'

/-- Python's `line.strip()`. -/
def pyStrip (l : List Char) : List Char :=
  ((l.dropWhile isPyWS).reverse.dropWhile isPyWS).reverse

/-- First index `≥ start` of a line satisfying `p`
(Python `for i in range(start, len(lines)): if p(lines[i]): ...`). -/
def findIdxFrom (p : List Char → Bool) (ls : List (List Char)) (start : Nat) :
    Option Nat :=
  (List.findIdx? p (ls.drop start)).map (· + start)

/-- All indices of lines satisfying `p`, starting the count at `i`. -/
def allIdxsAux (p : List Char → Bool) : Nat → List (List Char) → List Nat
  | _, [] => []
  | i, l :: rest =>
    if p l then i :: allIdxsAux p (i + 1) rest else allIdxsAux p (i + 1) rest

/-- The inline brace-depth loop of `refactor_modules.py` (lines 83–92),
run on the text remaining after the opening brace: `'\x7b'` increments the
depth, `'\x7d'` decrements it, and the scan stops at the closer that brings
the depth (initially `depth`) to zero, returning its offset. -/
def scanClose : List Char → Nat → Option Nat
  | [], _ => none
  | c :: rest, depth =>
    if c = '\x7b' then (scanClose rest (depth + 1)).map (· + 1)
    else if c = '\x7d' then
      if depth = 1 then some 0 else (scanClose rest (depth - 1)).map (· + 1)
    else (scanClose rest depth).map (· + 1)

/-- `end_index` of `refactor_modules.py`: the brace scan started at depth 1
(`none` models Python's `-1`, reached when the loop falls through). -/
def findEndIndex (part : List Char) : Option Nat :=
  scanClose part 1

/-- Number of occurrences of the character `x` in `l`. -/
def cnt (x : Char) : List Char → Nat
  | [] => 0
  | c :: rest => (if c = x then 1 else 0) + cnt x rest

/-- Running brace depth: value of the depth counter after scanning the first
`k` characters of `l`, starting from `d` (`'\x7b'` counts +1, `'\x7d'` -1). -/
def dAI (d : Int) (l : List Char) (k : Nat) : Int :=
  d + (cnt '\x7b' (l.take k) : Int) - (cnt '\x7d' (l.take k) : Int)

/-- Running brace depth with the scripts' initial depth 1. -/
def depthAfter (l : List Char) (k : Nat) : Int :=
  dAI 1 l k

/-- One step of the depth counter. -/
def dStep (d : Int) (c : Char) : Int :=
  if c = '\x7b' then d + 1 else if c = '\x7d' then d - 1 else d

/-- "Unbalanced from depth `d`": the running brace depth never returns to 0
anywhere in `l`. -/
def NeverZero (d : Int) (l : List Char) : Prop :=
  ∀ j, j < l.length → dAI d l (j + 1) ≠ 0

instance decNeverZero (d : Int) (l : List Char) : Decidable (NeverZero d l) :=
  inferInstanceAs (Decidable (∀ j, j < l.length → dAI d l (j + 1) ≠ 0))

/-- A character is an (opening or closing) brace. -/
def isBraceB (c : Char) : Bool :=
  c = '\x7b' || c = '\x7d'

/-- The subsequence of braces of a text. -/
def braceSeq (l : List Char) : List Char :=
  l.filter isBraceB

/-- ASCII approximation of the `\w` class of Python's `re` module
(the scripts only ever match ASCII identifiers). -/
def isWordChar (c : Char) : Bool :=
  c.isAlphanum || c = '_'

/-- Matcher for the regex `pre · \w+ · suf` with literal `pre` and `suf`
(the shape of the two `re.sub` patterns in `refactor_modules.py`): a greedy
`\w+` here is deterministic, since neither `suf`'s first character nor
anything else can extend a maximal word-character run. -/
def litWordMatcher (pre suf : List Char) (l : List Char) : Option Nat :=
  if isPre pre l then
    let k := ((l.drop pre.length).takeWhile isWordChar).length
    if 1 ≤ k ∧ isPre suf (l.drop (pre.length + k)) then
      some (pre.length + k + suf.length)
    else none
  else none

/-- `"println!"`, the literal part of the `remove_logs.py` regex. -/
def printlnPat : List Char :=
  ("println!").toList

/-- Character class `[\r\n]`. -/
def isCRLF (c : Char) : Bool :=
  c = '\x0a' || c = '\x0d'

/-- A character the lazy `.*?` of the `remove_logs.py` regex may consume
before the `;`: anything except `;` itself and a newline (`.` does not match
`'\n'`; `'\r'` is allowed). -/
def notSemiNl (c : Char) : Bool :=
  !(c = ';' : Bool) && !(c = '\x0a' : Bool)

/-- Offset of the `;` matched by the lazy `.*?;` (no newline may precede it);
`none` when the line ends or the text runs out first. -/
def findSemiInLine : List Char → Option Nat
  | [] => none
  | c :: rest =>
    if c = ';' then some 0
    else if c = '\x0a' then none
    else (findSemiInLine rest).map (· + 1)

/-- Attempt of the `remove_logs.py` regex `^\s*println!.*?;[\r\n]*` at a
position where `^` matches, returning the match length: a greedy `\s*`
(which also consumes newlines, hence preceding whitespace-only lines),
the literal `println!`, the lazy `.*?` up to the first `;` on the line,
then a greedy run of `[\r\n]`. -/
def tryMatchAt (l : List Char) : Option Nat :=
  let k := (l.takeWhile isPyWS).length
  if isPre printlnPat (l.drop k) then
    match findSemiInLine (l.drop (k + printlnPat.length)) with
    | some m =>
      some (k + printlnPat.length + m + 1 +
        ((l.drop (k + printlnPat.length + m + 1)).takeWhile isCRLF).length)
    | none => none
  else none

/-- `re.sub(r'^\s*println!.*?;[\r\n]*', '', content, flags=re.MULTILINE)`:
scan left to right; at each position where `^` matches (start of text, or
right after a newline) try the pattern and delete the match, continuing
after it; `atStart` records whether `^` matches here, `fuel` bounds the
recursion (it is kept `≥` the remaining length). -/
def reSubMLF : Nat → Bool → List Char → List Char
  | 0, _, l => l
  | _ + 1, _, [] => []
  | fuel + 1, atStart, c :: rest =>
    if atStart then
      match tryMatchAt (c :: rest) with
      | some n =>
        if 1 ≤ n then
          reSubMLF fuel ((c :: rest).getD (n - 1) ' ' == '\x0a')
            ((c :: rest).drop n)
        else c :: reSubMLF fuel (c == '\x0a') rest
      | none => c :: reSubMLF fuel (c == '\x0a') rest
    else c :: reSubMLF fuel (c == '\x0a') rest

/-- The whole transformation of `remove_logs.py` (line 18). -/
def removeLogs (content : List Char) : List Char :=
  reSubMLF content.length true content

/-- Python text-mode `write` of a script's content on a POSIX system
(`os.linesep = '\n'`, lossless locale encoding): the characters are stored
as they are. -/
def save (t : List Char) : List Char := t

/-- Python text-mode `read` (`open(path, 'r')` with the default
`newline=None`): universal-newline translation turns `"\r\n"` and a lone
`"\r"` into `"\n"`; all other characters are returned unchanged. -/
def loadT : List Char → List Char
  | [] => []
  | c :: rest =>
    if c = '\x0d' then
      match rest with
      | [] => ['\x0a']
      | c2 :: rest2 =>
        if c2 = '\x0a' then '\x0a' :: loadT rest2
        else '\x0a' :: loadT (c2 :: rest2)
    else c :: loadT rest

/-- Literal `target1` of `add_logs.py` (lines 6-14). -/
def target1 : List Char :=
  ("    fn open_hierarchy_window(&self) -> Result<()> \x7b\n        println!(\"🚀 Opening Hierarchy Tool Window\");\n\n        // Get current theme colors\n        let colors = get_current_theme_colors();\n\n        // Check if already open in this thread\n        let is_open = ACTIVE_TOOL_WINDOWS.with(|windows| \x7b").toList

/-- Literal `replacement1` of `add_logs.py` (lines 16-27). -/
def replacement1 : List Char :=
  ("    fn open_hierarchy_window(&self) -> Result<()> \x7b\n        println!(\"🚀 [open_hierarchy_window] Opening Hierarchy Tool Window\");\n\n        // Get current theme colors\n        println!(\"🎨 [open_hierarchy_window] Getting theme colors...\");\n        let colors = get_current_theme_colors();\n        println!(\"🎨 [open_hierarchy_window] Theme colors acquired.\");\n\n        // Check if already open in this thread\n        println!(\"🔍 [open_hierarchy_window] Checking ACTIVE_TOOL_WINDOWS...\");\n        let is_open = ACTIVE_TOOL_WINDOWS.with(|windows| \x7b").toList

/-- Literal `target2` of `add_logs.py` (lines 36-41). -/
def target2 : List Char :=
  ("        // Create Slint window for Hierarchy tool\n        let hierarchy_window = hierarchy::HierarchyToolWindow::new()?;\n        \n        // Apply theme\n        apply_theme!(&hierarchy_window, &colors, hierarchy);").toList

/-- Literal `replacement2` of `add_logs.py` (lines 43-52). -/
def replacement2 : List Char :=
  ("        // Create Slint window for Hierarchy tool\n        println!(\"🏗️ [open_hierarchy_window] Creating Slint window...\");\n        let hierarchy_window = hierarchy::HierarchyToolWindow::new()?;\n        println!(\"🏗️ [open_hierarchy_window] Slint window created.\");\n        \n        // Apply theme\n        println!(\"🎨 [open_hierarchy_window] Applying theme...\");\n        apply_theme!(&hierarchy_window, &colors, hierarchy);\n        println!(\"🎨 [open_hierarchy_window] Theme applied.\");").toList

/-- `hierarchy_replacement` of `refactor_listviews.py` (lines 22-44). -/
def hierRepl : List Char :=
  ("ListView \x7b\n            height: 400px;\n            for item in [\n                \x7b text: \"Chapter 1: Introduction\" \x7d,\n                \x7b text: \"Chapter 2: Background\" \x7d,\n                \x7b text: \"Chapter 3: Main Story\" \x7d,\n                \x7b text: \"Chapter 4: Climax\" \x7d,\n                \x7b text: \"Chapter 5: Resolution\" \x7d,\n            ] : VerticalBox \x7b\n                padding: 5px;\n                Rectangle \x7b\n                    height: 30px;\n                    background: Theme.secondary-bg;\n                    border-radius: 4px;\n                    Text \x7b\n                        text: item.text;\n                        font-size: 12px;\n                        vertical-alignment: center;\n                    \x7d\n                \x7d\n            \x7d\n        \x7d").toList

/-- `original_hierarchy` of `refactor_listviews.py` (lines 56-78). -/
def hierOrig : List Char :=
  ("        ListView \x7b\n            height: 400px;\n            model: [\n                \x7b text: \"Chapter 1: Introduction\" \x7d,\n                \x7b text: \"Chapter 2: Background\" \x7d,\n                \x7b text: \"Chapter 3: Main Story\" \x7d,\n                \x7b text: \"Chapter 4: Climax\" \x7d,\n                \x7b text: \"Chapter 5: Resolution\" \x7d,\n            ];\n            delegate := VerticalBox \x7b\n                padding: 5px;\n                Rectangle \x7b\n                    height: 30px;\n                    background: Theme.secondary-bg;\n                    border-radius: 4px;\n                    Text \x7b\n                        text: root.current_item.text;\n                        font-size: 12px;\n                        vertical-alignment: center;\n                    \x7d\n                \x7d\n            \x7d\n        \x7d").toList

/-- The `insertion` line list of `fix_build.py` (lines 47-63). -/
def insertionLines : List (List Char) :=
  [("    import \x7b Theme \x7d from \"../styles.slint\";\n").toList,
   ("    struct SlintThemeColors \x7b\n").toList,
   ("        primary-bg: color,\n").toList,
   ("        secondary-bg: color,\n").toList,
   ("        accent: color,\n").toList,
   ("        text-primary: color,\n").toList,
   ("        text-secondary: color,\n").toList,
   ("        border: color,\n").toList,
   ("        menu-bg: color,\n").toList,
   ("        toolbar-bg: color,\n").toList,
   ("        status-bg: color,\n").toList,
   ("        editor-bg: color,\n").toList,
   ("        title-bg: color,\n").toList,
   ("        ribbon-bg: color,\n").toList,
   ("        dropdown-bg: color,\n").toList,
   ("    \x7d\n").toList]

/-- The `apply_theme` macro header with `$theme_type:ty`
(matcher of `fix_macro_path.py`, produced by `fix_conflicts.py`). -/
def tyHeader : List Char :=
  ("($window:expr, $colors:expr, $theme_type:ty) => \x7b\x7b").toList

/-- The macro header with `$theme_type:path`
(replacement of `fix_macro_path.py`, matcher of `fix_macro_ident.py`). -/
def pathHeader : List Char :=
  ("($window:expr, $colors:expr, $theme_type:path) => \x7b\x7b").toList

/-- The macro header with `$theme_type:ident`
(replacement of `fix_macro_ident.py`). -/
def identHeader : List Char :=
  ("($window:expr, $colors:expr, $theme_type:ident) => \x7b\x7b").toList

/-- The original two-parameter macro header
(matcher of the first replace in `fix_conflicts.py`). -/
def exprHeader : List Char :=
  ("($window:expr, $colors:expr) => \x7b\x7b").toList

/-- The single transformation of `fix_macro_path.py` (lines 9–12). -/
def fixMacroPath (c : List Char) : List Char :=
  replaceSub tyHeader pathHeader c

/-- The single transformation of `fix_macro_ident.py` (lines 9–12). -/
def fixMacroIdent (c : List Char) : List Char :=
  replaceSub pathHeader identHeader c

/-- Diagnostics printed by `add_logs.py`. -/
def ap1Msg : List Char := ("Applied replacement 1").toList

/-- Diagnostic for a missing `target1` in `add_logs.py`. -/
def nf1Msg : List Char := ("Target 1 not found!").toList

/-- Diagnostic for an applied `target2` in `add_logs.py`. -/
def ap2Msg : List Char := ("Applied replacement 2").toList

/-- Diagnostic for a missing `target2` in `add_logs.py`. -/
def nf2Msg : List Char := ("Target 2 not found!").toList

/-- Rule 1 of `add_logs.py` (lines 29–34): guarded literal replacement,
returning the new text and the printed diagnostic. -/
def addLogsRule1 (c : List Char) : List Char × List Char :=
  if occursIn target1 c then (replaceSub target1 replacement1 c, ap1Msg)
  else (c, nf1Msg)

/-- Rule 2 of `add_logs.py` (lines 54–59). -/
def addLogsRule2 (c : List Char) : List Char × List Char :=
  if occursIn target2 c then (replaceSub target2 replacement2 c, ap2Msg)
  else (c, nf2Msg)

/-- The whole run of `add_logs.py` on a loaded text: rule 1, then rule 2 on
rule 1's result; both diagnostics are printed, and the final text is written
back.  A miss in either rule is recorded and never raises. -/
def addLogs (c : List Char) : List Char × List (List Char) :=
  ((addLogsRule2 (addLogsRule1 c).1).1,
   [(addLogsRule1 c).2, (addLogsRule2 (addLogsRule1 c).1).2])

/-- The `'slint::slint! \x7b'` anchor shared by `fix_tool_windows.py`,
`fix_conflicts.py` and `refactor_modules.py`. -/
def slintAnchor : List Char :=
  ("slint::slint! \x7b").toList

/-- Lines 8–15 of `fix_tool_windows.py`: `start_idx = content.find(anchor)`;
when the anchor is absent the script prints a message and calls `exit(1)`,
modelled as `Except.error 1` (process exit with status 1); otherwise the
script continues with the found index. -/
def ftwFindMacro (content : List Char) : Except Nat Nat :=
  match firstMatchIdx slintAnchor content with
  | none => Except.error 1
  | some i => Except.ok i

/-- `"macro_rules! apply_theme"`, searched by `fix_build.py`. -/
def macroRulesPat : List Char := ("macro_rules! apply_theme").toList

/-- `"=> \x7b"`, searched and doubled by `fix_build.py`. -/
def arrowBr : List Char := ("=> \x7b").toList

/-- `"=> \x7b\x7b"`, the doubled form. -/
def arrowBrBr : List Char := ("=> \x7b\x7b").toList

/-- The `invoke_set_theme` line matched inside the macro by `fix_build.py`. -/
def invokePat : List Char :=
  ("$window.invoke_set_theme(slint_colors);").toList

/-- `"\x7d;"`, the macro-arm terminator. -/
def closeSemiLn : List Char := ("\x7d;").toList

/-- `"\x7d\x7d;"`, the doubled terminator written by `fix_build.py`. -/
def dblCloseSemi : List Char := ("\x7d\x7d;").toList

/-- The scan of `fix_build.py` (lines 26–33) over the lines from the macro
body onward: strip semicolons from an `invoke_set_theme` line, and double
the first line that is exactly `"\x7d;"` after stripping, then stop. -/
def macroLoopL : List (List Char) → List (List Char)
  | [] => []
  | l0 :: rest =>
    let l1 := if occursIn invokePat l0 then replaceSub ([';']) [] l0 else l0
    if pyStrip l1 = closeSemiLn then replaceSub closeSemiLn dblCloseSemi l1 :: rest
    else l1 :: macroLoopL rest

/-- The macro-fixing phase of `fix_build.py` (lines 8–33): locate the
`macro_rules! apply_theme` line, then the first `"=> \x7b"` line at or after
it, double that line's arrow braces, and run `macroLoopL` from there. -/
def macroFix (lines : List (List Char)) : List (List Char) :=
  match findIdxFrom (occursIn macroRulesPat) lines 0 with
  | none => lines
  | some ms =>
    match findIdxFrom (occursIn arrowBr) lines ms with
    | none => lines
    | some bs =>
      let lines2 := lines.set bs (replaceSub arrowBr arrowBrBr (lines.getD bs []))
      lines2.take bs ++ macroLoopL (lines2.drop bs)

/-- `'from "std-widgets.slint";'`, the import line searched by `fix_build.py`. -/
def stdWidgetsPat : List Char := ("from \"std-widgets.slint\";").toList

/-- The single import line inserted into the non-first slint blocks. -/
def importThemeLine : List Char :=
  ("    import \x7b Theme \x7d from \"../styles.slint\";\n").toList

/-- Lines 36–67 of `fix_build.py`: insert the `SlintThemeColors` struct after
the std-widgets import of the first `slint!` block. -/
def firstSlintInsert (lines : List (List Char)) : List (List Char) :=
  match findIdxFrom (occursIn slintAnchor) lines 0 with
  | none => lines
  | some ss =>
    match findIdxFrom (occursIn stdWidgetsPat) lines ss with
    | none => lines
    | some il => lines.take (il + 1) ++ insertionLines ++ lines.drop (il + 1)

/-- Lines 69–88 of `fix_build.py`: collect the slint-block start indices once,
then insert an import line after the std-widgets import of every block but
the first (the indices are not adjusted for earlier insertions, exactly as in
the script). -/
def otherSlintInserts (ls : List (List Char)) : List (List Char) :=
  ((allIdxsAux (occursIn slintAnchor) 0 ls).drop 1).foldl
    (fun acc b =>
      match findIdxFrom (occursIn stdWidgetsPat) acc b with
      | none => acc
      | some il => acc.take (il + 1) ++ [importThemeLine] ++ acc.drop (il + 1))
    ls

/-- The whole run of `fix_build.py` on a loaded text. -/
def fixBuild (content : List Char) : List Char :=
  concatAll (otherSlintInserts (firstSlintInsert (macroFix (splitLines content))))

/-- `'let slint_colors = SlintThemeColors \x7b'`, matcher of the second
replace in `fix_conflicts.py`. -/
def slintColorsOld : List Char :=
  ("let slint_colors = SlintThemeColors \x7b").toList

/-- Its replacement `'let slint_colors = <$theme_type> \x7b'`. -/
def slintColorsNew : List Char :=
  ("let slint_colors = <$theme_type> \x7b").toList

/-- `"\x7d\x7d"`, the replacement of `"\x7d\x7d;"` in `fix_conflicts.py`. -/
def dblClose : List Char := ("\x7d\x7d").toList

/-- The generic theme-types import line matched per block by
`fix_conflicts.py`. -/
def importLineOld : List Char :=
  ("import \x7b SlintThemeColors \x7d from \"../theme_types.slint\";").toList

/-- The generic `set_theme` callback line matched per block. -/
def callbackOld : List Char :=
  ("callback set_theme(SlintThemeColors);").toList

/-- The tool table of `fix_conflicts.py`: tool name, per-tool theme type
name, and the `<tool>_window` variable name (`tool_name.lower() + "_window"`). -/
def fcTools : List (List Char × List Char × List Char) :=
  [(("Hierarchy").toList, ("HierarchyThemeColors").toList, ("hierarchy_window").toList),
   (("Codex").toList, ("CodexThemeColors").toList, ("codex_window").toList),
   (("Brainstorming").toList, ("BrainstormingThemeColors").toList, ("brainstorming_window").toList),
   (("Analysis").toList, ("AnalysisThemeColors").toList, ("analysis_window").toList),
   (("Plot").toList, ("PlotThemeColors").toList, ("plot_window").toList),
   (("Notes").toList, ("NotesThemeColors").toList, ("notes_window").toList),
   (("Research").toList, ("ResearchThemeColors").toList, ("research_window").toList),
   (("Structure").toList, ("StructureThemeColors").toList, ("structure_window").toList)]

/-- Per-tool aliased import line written by `fix_conflicts.py`. -/
def fcImportAs (theme : List Char) : List Char :=
  ("import \x7b SlintThemeColors as ").toList ++ theme ++
    (" \x7d from \"../theme_types.slint\";").toList

/-- Per-tool `set_theme` callback line written by `fix_conflicts.py`. -/
def fcCallbackAs (theme : List Char) : List Char :=
  ("callback set_theme(").toList ++ theme ++ (");").toList

/-- Per-part rewriting of `fix_conflicts.py` (lines 74–86). -/
def fcRewritePart (theme part : List Char) : List Char :=
  replaceSub callbackOld (fcCallbackAs theme)
    (replaceSub importLineOld (fcImportAs theme) part)

/-- The part loop of `fix_conflicts.py` (lines 70–90): each part after a
split at the slint anchor is rewritten with the matching tool's theme type
(parts beyond the tool table are re-emitted as they are). -/
def fcLoop : List (List Char × List Char × List Char) → List (List Char) → List Char
  | _, [] => []
  | [], p :: ps => (slintAnchor ++ p) ++ fcLoop [] ps
  | t :: ts, p :: ps => (slintAnchor ++ fcRewritePart t.2.1 p) ++ fcLoop ts ps

/-- The `ToolWindowHandle` match-arm pattern of `fix_conflicts.py`. -/
def fcHandlePat (tool : List Char) : List Char :=
  ("ToolWindowHandle::").toList ++ tool ++ ("(w) => apply_theme!(w, colors)").toList

/-- Its three-argument replacement. -/
def fcHandleRepl (tool theme : List Char) : List Char :=
  ("ToolWindowHandle::").toList ++ tool ++
    ("(w) => apply_theme!(w, colors, ").toList ++ theme ++ (")").toList

/-- The per-window `apply_theme!` call pattern of `fix_conflicts.py`. -/
def fcWindowPat (v : List Char) : List Char :=
  ("apply_theme!(&").toList ++ v ++ (", &colors);").toList

/-- Its three-argument replacement. -/
def fcWindowRepl (v theme : List Char) : List Char :=
  ("apply_theme!(&").toList ++ v ++ (", &colors, ").toList ++ theme ++ (");").toList

/-- Lines 95–113 of `fix_conflicts.py`: for each tool, replace the match-arm
call, first with and then without a trailing semicolon. -/
def fcToolCalls (c : List Char) : List Char :=
  fcTools.foldl
    (fun c t =>
      replaceSub (fcHandlePat t.1) (fcHandleRepl t.1 t.2.1)
        (replaceSub (fcHandlePat t.1 ++ [';']) (fcHandleRepl t.1 t.2.1) c))
    c

/-- Lines 126–136 of `fix_conflicts.py`: per-window `apply_theme!` calls. -/
def fcWindowCalls (c : List Char) : List Char :=
  fcTools.foldl
    (fun c t => replaceSub (fcWindowPat t.2.2) (fcWindowRepl t.2.2 t.2.1) c)
    c

/-- The whole run of `fix_conflicts.py` on a loaded text. -/
def fixConflicts (content : List Char) : List Char :=
  let c3 := replaceSub dblCloseSemi dblClose
    (replaceSub slintColorsOld slintColorsNew
      (replaceSub exprHeader tyHeader content))
  let c4 := match splitOnSub slintAnchor c3 with
    | [] => []
    | p0 :: rest => p0 ++ fcLoop fcTools rest
  fcWindowCalls (fcToolCalls c4)

/-- Literal prefix of the import regex of `refactor_modules.py`
(`import \\\x7b SlintThemeColors as \\w+ \\\x7d`). -/
def importPre : List Char := ("import \x7b SlintThemeColors as ").toList

/-- Literal suffix of the import regex. -/
def importSuf : List Char := (" \x7d").toList

/-- Replacement of the import regex. -/
def importRepl : List Char := ("import \x7b SlintThemeColors \x7d").toList

/-- Literal prefix of the callback regex of `refactor_modules.py`
(`callback set_theme\\(\\w+\\);`). -/
def callbackPre : List Char := ("callback set_theme(").toList

/-- Literal suffix of the callback regex. -/
def callbackSuf : List Char := (");").toList

/-- Replacement of the callback regex. -/
def callbackRepl : List Char := ("callback set_theme(SlintThemeColors);").toList

/-- The first `re.sub` of `refactor_modules.py`'s part loop (lines 46–51). -/
def reSubImport (l : List Char) : List Char :=
  reSubWith (litWordMatcher importPre importSuf) importRepl l

/-- The second `re.sub` of the part loop (lines 55–59). -/
def reSubCallback (l : List Char) : List Char :=
  reSubWith (litWordMatcher callbackPre callbackSuf) callbackRepl l

/-- The tool table of `refactor_modules.py`: tool name and module name. -/
def rmTools : List (List Char × List Char) :=
  [(("Hierarchy").toList, ("hierarchy").toList),
   (("Codex").toList, ("codex").toList),
   (("Brainstorming").toList, ("brainstorming").toList),
   (("Analysis").toList, ("analysis").toList),
   (("Plot").toList, ("plot").toList),
   (("Notes").toList, ("notes").toList),
   (("Research").toList, ("research").toList),
   (("Structure").toList, ("structure").toList)]

/-- The module wrapper written by `refactor_modules.py` (line 102). -/
def buildModBlock (modName inner : List Char) : List Char :=
  ("pub mod ").toList ++ modName ++ (" \x7b\n    slint::slint! \x7b\n").toList ++
    inner ++ ("\n    \x7d\n\x7d\n").toList

/-- One iteration of the part loop of `refactor_modules.py` (lines 40–112):
regex-rewrite the part, then extract the balanced brace block; on success
wrap it in a module, on failure (unbalanced braces) re-emit the anchor and
the rewritten part unchanged. -/
def processPart (modName part : List Char) : List Char :=
  let q := reSubCallback (reSubImport part)
  match findEndIndex q with
  | some e => buildModBlock modName (q.take e) ++ q.drop (e + 1)
  | none => slintAnchor ++ q

/-- The part loop of `refactor_modules.py`: parts beyond the tool table are
re-emitted with the anchor. -/
def rmLoop : List (List Char × List Char) → List (List Char) → List Char
  | _, [] => []
  | [], p :: ps => (slintAnchor ++ p) ++ rmLoop [] ps
  | t :: ts, p :: ps => processPart t.2 p ++ rmLoop ts ps

/-- The enum-variant pattern of step 4 of `refactor_modules.py`. -/
def rmHandleOld (tool : List Char) : List Char :=
  tool ++ ("(").toList ++ tool ++ ("ToolWindow)").toList

/-- Its module-qualified replacement. -/
def rmHandleNew (tool modn : List Char) : List Char :=
  tool ++ ("(").toList ++ modn ++ ("::").toList ++ tool ++ ("ToolWindow)").toList

/-- Step 4 of `refactor_modules.py` (lines 118–124). -/
def rmStep4 (c : List Char) : List Char :=
  rmTools.foldl (fun c t => replaceSub (rmHandleOld t.1) (rmHandleNew t.1 t.2) c) c

/-- The match-arm pattern of step 5 of `refactor_modules.py` (the escaped
regex is a literal). -/
def rmMatchPat (tool : List Char) : List Char :=
  ("ToolWindowHandle::").toList ++ tool ++ ("(w) => apply_theme!(w, colors)").toList

/-- Its module-qualified replacement. -/
def rmMatchRepl (tool modn : List Char) : List Char :=
  ("ToolWindowHandle::").toList ++ tool ++
    ("(w) => apply_theme!(w, colors, ").toList ++ modn ++ ("::SlintThemeColors)").toList

/-- The per-window call pattern of step 5. -/
def rmCallPat (modn : List Char) : List Char :=
  ("apply_theme!(&").toList ++ modn ++ ("_window, &colors);").toList

/-- Its module-qualified replacement. -/
def rmCallRepl (modn : List Char) : List Char :=
  ("apply_theme!(&").toList ++ modn ++ ("_window, &colors, ").toList ++
    modn ++ ("::SlintThemeColors);").toList

/-- Step 5 of `refactor_modules.py` (lines 126–145). -/
def rmStep5 (c : List Char) : List Char :=
  rmTools.foldl
    (fun c t =>
      replaceSub (rmCallPat t.2) (rmCallRepl t.2)
        (replaceSub (rmMatchPat t.1) (rmMatchRepl t.1 t.2) c))
    c

/-- The whole run of `refactor_modules.py` on a loaded text. -/
def refactorModules (content : List Char) : List Char :=
  let c1 := replaceSub identHeader pathHeader content
  let c2 := match splitOnSub slintAnchor c1 with
    | [] => []
    | p0 :: rest => p0 ++ rmLoop rmTools rest
  rmStep5 (rmStep4 c2)

/-- The `'export component StructureTool'` anchor of `refactor_listviews.py`. -/
def sAnchor : List Char := ("export component StructureTool").toList

/-- The hierarchy ListView replacement step of `refactor_listviews.py`
(line 81). -/
def hierarchyStep (c : List Char) : List Char :=
  replaceSub hierOrig hierRepl c

/-- The five replaces applied to the StructureTool part
(`refactor_listviews.py`, lines 125–129). -/
def structRewrite (p : List Char) : List Char :=
  replaceSub (("margin: 4px;").toList) []
    (replaceSub (("root.current_item").toList) (("item").toList)
      (replaceSub (("delegate := Rectangle \x7b").toList) (("Rectangle \x7b").toList)
        (replaceSub (("];").toList) (("]:").toList)
          (replaceSub (("model: [").toList) (("for item in [").toList) p))))

/-- The StructureTool-scoped step of `refactor_listviews.py` (lines 121–131):
split at the anchor; when it occurs, rejoin only the text before the first
occurrence, one copy of the anchor, and the rewritten first post-anchor
segment. -/
def structureToolStep (content : List Char) : List Char :=
  match splitOnSub sAnchor content with
  | p0 :: p1 :: _ => p0 ++ sAnchor ++ structRewrite p1
  | _ => content

/-- The whole run of `refactor_listviews.py` on a loaded text (the
line-by-line loop of lines 88–119 builds an unused list and changes
nothing). -/
def refactorListviews (content : List Char) : List Char :=
  structureToolStep (hierarchyStep content)

/-! ## Lemmas about the string primitives -/

theorem isPre_self_append (p t : List Char) : isPre p (p ++ t) = true := by
  induction p with
  | nil => rfl
  | cons a as ih => simp [isPre, ih]

theorem isPre_append_drop (p l : List Char) (h : isPre p l = true) :
    p ++ l.drop p.length = l := by
  induction p generalizing l with
  | nil => simp
  | cons a as ih =>
    cases l with
    | nil => simp [isPre] at h
    | cons b bs =>
      simp only [isPre, Bool.and_eq_true, decide_eq_true_eq] at h
      obtain ⟨h1, h2⟩ := h
      subst h1
      simpa using ih bs h2

theorem isPre_length_le (p l : List Char) (h : isPre p l = true) :
    p.length ≤ l.length := by
  have h2 := isPre_append_drop p l h
  have h3 := congrArg List.length h2
  simp at h3
  omega

theorem isPre_nil_of_ne (p : List Char) (h : p ≠ []) : isPre p [] = false := by
  cases p with
  | nil => exact absurd rfl h
  | cons a as => rfl

theorem occursIn_of_isPre (p l : List Char) (h : isPre p l = true) :
    occursIn p l = true := by
  cases l with
  | nil =>
    cases p with
    | nil => rfl
    | cons a as => simp [isPre] at h
  | cons c rest => simp [occursIn, h]

theorem occursIn_self_append (p x : List Char) : occursIn p (p ++ x) = true :=
  occursIn_of_isPre p (p ++ x) (isPre_self_append p x)

theorem occursIn_cons_of_occursIn (p : List Char) (c : Char) (l : List Char)
    (h : occursIn p l = true) : occursIn p (c :: l) = true := by
  simp [occursIn, h]

theorem firstMatchIdx_isPre (pat l : List Char) (i : Nat)
    (h : firstMatchIdx pat l = some i) : isPre pat (l.drop i) = true := by
  induction l generalizing i with
  | nil =>
    simp only [firstMatchIdx] at h
    by_cases he : pat.isEmpty
    · simp [he] at h
      subst h
      cases pat with
      | nil => rfl
      | cons a as => simp [List.isEmpty] at he
    · simp [he] at h
  | cons c rest ih =>
    simp only [firstMatchIdx] at h
    by_cases hp : isPre pat (c :: rest) = true
    · simp [hp] at h
      subst h
      simpa using hp
    · simp only [Bool.not_eq_true] at hp
      simp [hp] at h
      obtain ⟨j, hj1, hj2⟩ := h
      subst hj2
      simpa using ih j hj1

theorem firstMatchIdx_min (pat l : List Char) (i : Nat)
    (h : firstMatchIdx pat l = some i) :
    ∀ j, j < i → isPre pat (l.drop j) = false := by
  induction l generalizing i with
  | nil =>
    intro j hj
    simp only [firstMatchIdx] at h
    by_cases he : pat.isEmpty
    · simp [he] at h
      omega
    · simp [he] at h
  | cons c rest ih =>
    intro j hj
    simp only [firstMatchIdx] at h
    by_cases hp : isPre pat (c :: rest) = true
    · simp [hp] at h
      omega
    · simp only [Bool.not_eq_true] at hp
      simp [hp] at h
      obtain ⟨k, hk1, hk2⟩ := h
      subst hk2
      cases j with
      | zero => simpa using hp
      | succ j2 =>
        have := ih k hk1 j2 (by omega)
        simpa using this

theorem firstMatchIdx_isSome_of_occurs (pat l : List Char)
    (h : occursIn pat l = true) : ∃ i, firstMatchIdx pat l = some i := by
  induction l with
  | nil =>
    simp only [occursIn] at h
    exact ⟨0, by simp [firstMatchIdx, h]⟩
  | cons c rest ih =>
    simp only [occursIn, Bool.or_eq_true] at h
    by_cases hp : isPre pat (c :: rest) = true
    · exact ⟨0, by simp [firstMatchIdx, hp]⟩
    · simp only [Bool.not_eq_true] at hp
      rcases h with h | h
      · rw [hp] at h; cases h
      · obtain ⟨i, hi⟩ := ih h
        exact ⟨i + 1, by simp [firstMatchIdx, hp, hi]⟩

theorem firstMatchIdx_none_of_not_occurs (pat l : List Char)
    (h : occursIn pat l = false) : firstMatchIdx pat l = none := by
  induction l with
  | nil =>
    simp only [occursIn] at h
    simp [firstMatchIdx, h]
  | cons c rest ih =>
    simp only [occursIn, Bool.or_eq_true] at h
    rw [Bool.or_eq_false_iff] at h
    simp [firstMatchIdx, h.1, ih h.2]

theorem firstMatchIdx_lt_length (pat l : List Char) (i : Nat) (hp : pat ≠ [])
    (h : firstMatchIdx pat l = some i) : i < l.length := by
  have h1 := firstMatchIdx_isPre pat l i h
  by_contra hc
  rw [List.drop_eq_nil_of_le (by omega)] at h1
  rw [isPre_nil_of_ne pat hp] at h1
  cases h1

/-! ## Lemmas about the substitution engine -/

theorem reSubAux_skip (m : List Char → Option Nat) (repl : List Char) :
    ∀ (l : List Char) (skip : Nat),
      reSubAux m repl skip l = reSubAux m repl 0 (l.drop skip) := by
  intro l
  induction l with
  | nil => intro skip; cases skip <;> rfl
  | cons c rest ih =>
    intro skip
    cases skip with
    | zero => rfl
    | succ k =>
      show reSubAux m repl k rest = _
      rw [ih k]
      rfl

theorem reSubWith_nil (m : List Char → Option Nat) (repl : List Char) :
    reSubWith m repl [] = [] := rfl

theorem reSubWith_cons_match (m : List Char → Option Nat)
    (repl : List Char) (c : Char) (rest : List Char) (n : Nat)
    (h : m (c :: rest) = some (n + 1)) :
    reSubWith m repl (c :: rest) = repl ++ reSubWith m repl (rest.drop n) := by
  show reSubAux m repl 0 (c :: rest) = _
  rw [reSubAux, h]
  show repl ++ reSubAux m repl n rest = _
  rw [reSubAux_skip m repl rest n]
  rfl

theorem reSubWith_cons_none (m : List Char → Option Nat)
    (repl : List Char) (c : Char) (rest : List Char)
    (h : m (c :: rest) = none) :
    reSubWith m repl (c :: rest) = c :: reSubWith m repl rest := by
  show reSubAux m repl 0 (c :: rest) = _
  rw [reSubAux, h]
  show c :: reSubAux m repl 0 rest = _
  rfl

theorem litMatcher_none (pat l : List Char) (h : isPre pat l = false) :
    litMatcher pat l = none := by
  simp [litMatcher, h]

theorem litMatcher_some (pat l : List Char) (hp : pat ≠ [])
    (h : isPre pat l = true) : litMatcher pat l = some pat.length := by
  have he : pat.isEmpty = false := by
    cases pat with
    | nil => exact absurd rfl hp
    | cons a as => rfl
  simp [litMatcher, h, he]

theorem replaceSub_of_not_occurs (pat repl l : List Char)
    (h : occursIn pat l = false) : replaceSub pat repl l = l := by
  induction l with
  | nil => rfl
  | cons c rest ih =>
    simp only [occursIn] at h
    rw [Bool.or_eq_false_iff] at h
    unfold replaceSub
    rw [reSubWith_cons_none _ _ _ _ (litMatcher_none pat (c :: rest) h.1)]
    rw [show reSubWith (litMatcher pat) repl rest = replaceSub pat repl rest from rfl]
    rw [ih h.2]

theorem occurs_repl_aux (pat repl : List Char) (hp : pat ≠ []) :
    ∀ (fuel : Nat) (l : List Char), l.length ≤ fuel → occursIn pat l = true →
      occursIn repl (replaceSub pat repl l) = true := by
  intro fuel
  induction fuel with
  | zero =>
    intro l hl h
    have hnil : l = [] := List.length_eq_zero.mp (by omega)
    subst hnil
    simp only [occursIn] at h
    cases pat with
    | nil => exact absurd rfl hp
    | cons a as => simp [List.isEmpty] at h
  | succ fuel ih =>
    intro l hl h
    cases l with
    | nil =>
      simp only [occursIn] at h
      cases pat with
      | nil => exact absurd rfl hp
      | cons a as => simp [List.isEmpty] at h
    | cons c rest =>
      by_cases hpre : isPre pat (c :: rest) = true
      · obtain ⟨k, hk⟩ : ∃ k, pat.length = k + 1 := by
          cases pat with
          | nil => exact absurd rfl hp
          | cons a as => exact ⟨as.length, rfl⟩
        have hm : litMatcher pat (c :: rest) = some (k + 1) := by
          rw [litMatcher_some pat (c :: rest) hp hpre, hk]
        unfold replaceSub
        rw [reSubWith_cons_match _ _ _ _ _ hm]
        exact occursIn_self_append repl _
      · simp only [occursIn, Bool.or_eq_true] at h
        simp only [Bool.not_eq_true] at hpre
        rcases h with h | h
        · rw [hpre] at h; cases h
        · unfold replaceSub
          rw [reSubWith_cons_none _ _ _ _ (litMatcher_none pat (c :: rest) hpre)]
          exact occursIn_cons_of_occursIn repl c _
            (ih rest (by simp at hl; omega) h)

theorem occurs_repl_replaceSub (pat repl l : List Char) (hp : pat ≠ [])
    (h : occursIn pat l = true) :
    occursIn repl (replaceSub pat repl l) = true :=
  occurs_repl_aux pat repl hp l.length l (Nat.le_refl _) h

/-! ## Lemmas about `splitOnSub` -/

theorem splitOnSubF_fuel (sep : List Char) (hs : sep ≠ []) :
    ∀ (f1 : Nat) (f2 : Nat) (l : List Char), l.length < f1 → l.length < f2 →
      splitOnSubF sep f1 l = splitOnSubF sep f2 l := by
  intro f1
  induction f1 with
  | zero => intro f2 l h1 h2; omega
  | succ f1 ih =>
    intro f2 l h1 h2
    cases f2 with
    | zero => omega
    | succ f2 =>
      show (match firstMatchIdx sep l with
        | none => [l]
        | some i => l.take i :: splitOnSubF sep f1 (l.drop (i + sep.length))) =
        (match firstMatchIdx sep l with
        | none => [l]
        | some i => l.take i :: splitOnSubF sep f2 (l.drop (i + sep.length)))
      cases h : firstMatchIdx sep l with
      | none => rfl
      | some i =>
        have hi := firstMatchIdx_lt_length sep l i hs h
        have hsl : 1 ≤ sep.length := by
          cases sep with
          | nil => exact absurd rfl hs
          | cons a as => simp
        have hd : (l.drop (i + sep.length)).length < f1 := by
          simp [List.length_drop]
          omega
        have hd2 : (l.drop (i + sep.length)).length < f2 := by
          simp [List.length_drop]
          omega
        show l.take i :: splitOnSubF sep f1 (l.drop (i + sep.length)) =
          l.take i :: splitOnSubF sep f2 (l.drop (i + sep.length))
        rw [ih f2 (l.drop (i + sep.length)) hd hd2]

theorem splitOnSub_eq (sep l : List Char) (hs : sep ≠ []) :
    splitOnSub sep l = (match firstMatchIdx sep l with
      | none => [l]
      | some i => l.take i :: splitOnSub sep (l.drop (i + sep.length))) := by
  show splitOnSubF sep (l.length + 1) l = _
  show (match firstMatchIdx sep l with
    | none => [l]
    | some i => l.take i :: splitOnSubF sep l.length (l.drop (i + sep.length))) = _
  cases h : firstMatchIdx sep l with
  | none => rfl
  | some i =>
    have hi := firstMatchIdx_lt_length sep l i hs h
    have hsl : 1 ≤ sep.length := by
      cases sep with
      | nil => exact absurd rfl hs
      | cons a as => simp
    simp only
    rw [splitOnSubF_fuel sep hs l.length ((l.drop (i + sep.length)).length + 1)
      (l.drop (i + sep.length)) (by simp [List.length_drop]; omega) (by omega)]
    rfl

theorem splitOnSub_ne_nil (sep l : List Char) : splitOnSub sep l ≠ [] := by
  show splitOnSubF sep (l.length + 1) l ≠ []
  show (match firstMatchIdx sep l with
    | none => [l]
    | some i => l.take i :: splitOnSubF sep l.length (l.drop (i + sep.length))) ≠ []
  cases h : firstMatchIdx sep l with
  | none => simp
  | some i => simp

theorem joinWith_cons (sep p : List Char) (ps : List (List Char))
    (h : ps ≠ []) : joinWith sep (p :: ps) = p ++ sep ++ joinWith sep ps := by
  cases ps with
  | nil => exact absurd rfl h
  | cons q qs => rfl

theorem join_split_aux (sep : List Char) (hs : sep ≠ []) :
    ∀ (fuel : Nat) (l : List Char), l.length ≤ fuel →
      joinWith sep (splitOnSub sep l) = l := by
  intro fuel
  induction fuel with
  | zero =>
    intro l hl
    have hnil : l = [] := List.length_eq_zero.mp (by omega)
    subst hnil
    rw [splitOnSub_eq sep [] hs]
    rw [firstMatchIdx_none_of_not_occurs sep []
      (by cases sep with
        | nil => exact absurd rfl hs
        | cons a as => rfl)]
    rfl
  | succ fuel ih =>
    intro l hl
    rw [splitOnSub_eq sep l hs]
    cases h : firstMatchIdx sep l with
    | none => rfl
    | some i =>
      have hi := firstMatchIdx_lt_length sep l i hs h
      have hsl : 1 ≤ sep.length := by
        cases sep with
        | nil => exact absurd rfl hs
        | cons a as => simp
      simp only
      rw [joinWith_cons sep _ _ (splitOnSub_ne_nil sep _)]
      rw [ih (l.drop (i + sep.length)) (by simp [List.length_drop]; omega)]
      have hpre := firstMatchIdx_isPre sep l i h
      have hd : sep ++ (l.drop i).drop sep.length = l.drop i :=
        isPre_append_drop sep (l.drop i) hpre
      rw [List.drop_drop] at hd
      calc l.take i ++ sep ++ l.drop (i + sep.length)
          = l.take i ++ (sep ++ l.drop (i + sep.length)) := by
            rw [List.append_assoc]
        _ = l.take i ++ l.drop i := by rw [hd]
        _ = l := List.take_append_drop i l

theorem join_split (sep l : List Char) (hs : sep ≠ []) :
    joinWith sep (splitOnSub sep l) = l :=
  join_split_aux sep hs l.length l (Nat.le_refl _)

/-! ## The brace-depth scan -/

theorem dAI_zero (d : Int) (l : List Char) : dAI d l 0 = d := by
  simp [dAI, cnt]

theorem dAI_cons (d : Int) (c : Char) (r : List Char) (k : Nat) :
    dAI d (c :: r) (k + 1) = dAI (dStep d c) r k := by
  have hne : ¬ ('\x7b' : Char) = '\x7d' := by decide
  have hne2 : ¬ ('\x7d' : Char) = '\x7b' := by decide
  by_cases h1 : c = '\x7b'
  · subst h1
    simp only [dAI, dStep, List.take_succ_cons, cnt, if_pos rfl, if_neg hne]
    push_cast
    ring
  · by_cases h2 : c = '\x7d'
    · subst h2
      simp only [dAI, dStep, List.take_succ_cons, cnt, if_neg hne2, if_pos rfl]
      push_cast
      ring
    · simp only [dAI, dStep, List.take_succ_cons, cnt, if_neg h1, if_neg h2]
      push_cast
      ring

theorem scanClose_spec :
    ∀ (l : List Char) (d : Nat), 1 ≤ d →
      (scanClose l d = none ∧ ∀ j, j < l.length → dAI (d : Int) l (j + 1) ≠ 0)
      ∨ (∃ k, scanClose l d = some k ∧ k < l.length ∧
          l.get? k = some '\x7d' ∧ dAI (d : Int) l (k + 1) = 0 ∧
          ∀ i, i < k → dAI (d : Int) l (i + 1) ≠ 0) := by
  intro l
  induction l with
  | nil =>
    intro d hd
    left
    exact ⟨rfl, by intro j hj; simp at hj⟩
  | cons c rest ih =>
    intro d hd
    have hdi : (1 : Int) ≤ (d : Int) := by exact_mod_cast hd
    by_cases h1 : c = '\x7b'
    · subst h1
      have hs : dStep (d : Int) '\x7b' = (d : Int) + 1 := by
        simp [dStep]
      have hcast : (((d + 1 : Nat)) : Int) = (d : Int) + 1 := by push_cast; ring
      have hscan : scanClose ('\x7b' :: rest) d =
          (scanClose rest (d + 1)).map (· + 1) := by
        simp [scanClose]
      rcases ih (d + 1) (by omega) with ⟨hn, hall⟩ | ⟨k, hk, hkl, hget, hz, hmin⟩
      · left
        refine ⟨by rw [hscan, hn]; rfl, ?_⟩
        intro j hj
        cases j with
        | zero =>
          rw [dAI_cons, dAI_zero, hs]
          omega
        | succ j2 =>
          rw [dAI_cons, hs]
          rw [hcast] at hall
          exact hall j2 (by simp at hj; omega)
      · right
        refine ⟨k + 1, by rw [hscan, hk]; rfl, by simp; omega, by simpa using hget, ?_, ?_⟩
        · rw [dAI_cons, hs]
          rw [hcast] at hz
          exact hz
        · intro i hi
          cases i with
          | zero =>
            rw [dAI_cons, dAI_zero, hs]
            omega
          | succ i2 =>
            rw [dAI_cons, hs]
            rw [hcast] at hmin
            exact hmin i2 (by omega)
    · by_cases h2 : c = '\x7d'
      · subst h2
        have hs : dStep (d : Int) '\x7d' = (d : Int) - 1 := by
          simp [dStep]
        by_cases hd1 : d = 1
        · subst hd1
          right
          refine ⟨0, ?_, by simp, rfl, ?_, by intro i hi; omega⟩
          · simp [scanClose]
          · rw [dAI_cons, dAI_zero, hs]
            ring
        · have hd2 : 2 ≤ d := by omega
          have hscan : scanClose ('\x7d' :: rest) d =
              (scanClose rest (d - 1)).map (· + 1) := by
            simp [scanClose, hd1]
          have hcast : (((d - 1 : Nat)) : Int) = (d : Int) - 1 := by omega
          rcases ih (d - 1) (by omega) with ⟨hn, hall⟩ | ⟨k, hk, hkl, hget, hz, hmin⟩
          · left
            refine ⟨by rw [hscan, hn]; rfl, ?_⟩
            intro j hj
            cases j with
            | zero =>
              rw [dAI_cons, dAI_zero, hs]
              omega
            | succ j2 =>
              rw [dAI_cons, hs]
              rw [hcast] at hall
              exact hall j2 (by simp at hj; omega)
          · right
            refine ⟨k + 1, by rw [hscan, hk]; rfl, by simp; omega,
              by simpa using hget, ?_, ?_⟩
            · rw [dAI_cons, hs]
              rw [hcast] at hz
              exact hz
            · intro i hi
              cases i with
              | zero =>
                rw [dAI_cons, dAI_zero, hs]
                omega
              | succ i2 =>
                rw [dAI_cons, hs]
                rw [hcast] at hmin
                exact hmin i2 (by omega)
      · have hs : dStep (d : Int) c = (d : Int) := by
          simp [dStep, h1, h2]
        have hscan : scanClose (c :: rest) d =
            (scanClose rest d).map (· + 1) := by
          simp [scanClose, h1, h2]
        rcases ih d hd with ⟨hn, hall⟩ | ⟨k, hk, hkl, hget, hz, hmin⟩
        · left
          refine ⟨by rw [hscan, hn]; rfl, ?_⟩
          intro j hj
          cases j with
          | zero =>
            rw [dAI_cons, dAI_zero, hs]
            omega
          | succ j2 =>
            rw [dAI_cons, hs]
            exact hall j2 (by simp at hj; omega)
        · right
          refine ⟨k + 1, by rw [hscan, hk]; rfl, by simp; omega,
            by simpa using hget, ?_, ?_⟩
          · rw [dAI_cons, hs]
            exact hz
          · intro i hi
            cases i with
            | zero =>
              rw [dAI_cons, dAI_zero, hs]
              omega
            | succ i2 =>
              rw [dAI_cons, hs]
              exact hmin i2 (by omega)

theorem findEndIndex_none_iff (l : List Char) :
    findEndIndex l = none ↔ ∀ j, j < l.length → depthAfter l (j + 1) ≠ 0 := by
  rcases scanClose_spec l 1 (Nat.le_refl 1) with ⟨hn, hall⟩ | ⟨k, hk, hkl, _, hz, _⟩
  · constructor
    · intro _ j hj
      simpa [depthAfter] using hall j hj
    · intro _
      exact hn
  · constructor
    · intro h
      rw [show findEndIndex l = scanClose l 1 from rfl, hk] at h
      cases h
    · intro h
      exact absurd (by simpa [depthAfter] using h k hkl) (by simpa using hz)

/-! ## Brace-sequence preservation under the regex rewrites -/

theorem neverZero_cons (d : Int) (c : Char) (r : List Char) :
    NeverZero d (c :: r) ↔ (dStep d c ≠ 0 ∧ NeverZero (dStep d c) r) := by
  constructor
  · intro h
    refine ⟨?_, ?_⟩
    · have h0 := h 0 (by simp)
      rwa [dAI_cons, dAI_zero] at h0
    · intro j hj
      have hs := h (j + 1) (by simp; omega)
      rwa [dAI_cons] at hs
  · rintro ⟨h0, h⟩
    intro j hj
    cases j with
    | zero =>
      rw [dAI_cons, dAI_zero]
      exact h0
    | succ j2 =>
      rw [dAI_cons]
      exact h j2 (by simp at hj; omega)

theorem neverZero_braceSeq :
    ∀ (l : List Char) (d : Int), d ≠ 0 →
      (NeverZero d l ↔ NeverZero d (braceSeq l)) := by
  intro l
  induction l with
  | nil => intro d hd; exact Iff.rfl
  | cons c r ih =>
    intro d hd
    by_cases hb : isBraceB c = true
    · have hbs : braceSeq (c :: r) = c :: braceSeq r := by
        simp [braceSeq, List.filter_cons, hb]
      rw [hbs, neverZero_cons, neverZero_cons]
      by_cases hz : dStep d c = 0
      · simp [hz]
      · rw [ih (dStep d c) hz]
    · have hbs : braceSeq (c :: r) = braceSeq r := by
        simp [braceSeq, List.filter_cons, hb]
      simp only [isBraceB, Bool.or_eq_true, decide_eq_true_eq, not_or] at hb
      have hst : dStep d c = d := by
        simp [dStep, hb.1, hb.2]
      rw [hbs, neverZero_cons, hst]
      constructor
      · rintro ⟨_, h⟩
        exact (ih d hd).mp h
      · intro h
        exact ⟨hd, (ih d hd).mpr h⟩

theorem reSubWith_cons_zero (m : List Char → Option Nat)
    (repl : List Char) (c : Char) (rest : List Char)
    (h : m (c :: rest) = some 0) :
    reSubWith m repl (c :: rest) = c :: reSubWith m repl rest := by
  show reSubAux m repl 0 (c :: rest) = _
  rw [reSubAux, h]
  show c :: reSubAux m repl 0 rest = _
  rfl

theorem braceSeq_append (a b : List Char) :
    braceSeq (a ++ b) = braceSeq a ++ braceSeq b := by
  simp [braceSeq, List.filter_append]

theorem braceSeq_reSubWith_aux (m : List Char → Option Nat) (repl : List Char)
    (hm : ∀ l n, m l = some (n + 1) → braceSeq (l.take (n + 1)) = braceSeq repl) :
    ∀ (fuel : Nat) (l : List Char), l.length ≤ fuel →
      braceSeq (reSubWith m repl l) = braceSeq l := by
  intro fuel
  induction fuel with
  | zero =>
    intro l hl
    have hnil : l = [] := List.length_eq_zero.mp (by omega)
    subst hnil
    rfl
  | succ fuel ih =>
    intro l hl
    cases l with
    | nil => rfl
    | cons c rest =>
      cases hmc : m (c :: rest) with
      | none =>
        rw [reSubWith_cons_none _ _ _ _ hmc]
        simp only [braceSeq, List.filter_cons]
        rw [show List.filter isBraceB (reSubWith m repl rest) =
          braceSeq (reSubWith m repl rest) from rfl]
        rw [ih rest (by simp at hl; omega)]
        rfl
      | some n =>
        cases n with
        | zero =>
          rw [reSubWith_cons_zero _ _ _ _ hmc]
          simp only [braceSeq, List.filter_cons]
          rw [show List.filter isBraceB (reSubWith m repl rest) =
            braceSeq (reSubWith m repl rest) from rfl]
          rw [ih rest (by simp at hl; omega)]
          rfl
        | succ n2 =>
          rw [reSubWith_cons_match _ _ _ _ _ hmc]
          rw [braceSeq_append]
          rw [ih (rest.drop n2) (by simp [List.length_drop] at hl ⊢; omega)]
          rw [← hm (c :: rest) n2 hmc]
          rw [← braceSeq_append]
          have hsplit : (c :: rest).take (n2 + 1) ++ rest.drop n2 = c :: rest := by
            rw [List.take_succ_cons]
            show c :: (rest.take n2 ++ rest.drop n2) = c :: rest
            rw [List.take_append_drop]
          rw [hsplit]

theorem takeWhile_all (p : Char → Bool) (l : List Char) :
    (l.takeWhile p).all p = true := by
  induction l with
  | nil => rfl
  | cons c rest ih =>
    by_cases h : p c = true
    · simp [List.takeWhile_cons, h, ih]
    · simp only [Bool.not_eq_true] at h
      simp [List.takeWhile_cons, h]

theorem take_takeWhile_len (p : Char → Bool) (l : List Char) :
    l.take (l.takeWhile p).length = l.takeWhile p := by
  induction l with
  | nil => rfl
  | cons c rest ih =>
    by_cases h : p c = true
    · simp [List.takeWhile_cons, h, ih]
    · simp only [Bool.not_eq_true] at h
      simp [List.takeWhile_cons, h]

theorem take_append_len (a b : List Char) (n : Nat) :
    (a ++ b).take (a.length + n) = a ++ b.take n := by
  induction a with
  | nil => simp
  | cons c as ih => simpa [List.take_succ_cons, Nat.succ_add] using ih

theorem drop_append_len (a b : List Char) (n : Nat) :
    (a ++ b).drop (a.length + n) = b.drop n := by
  induction a with
  | nil => simp
  | cons c as ih => simp [Nat.succ_add, ih]

theorem litWordMatcher_take (pre suf l : List Char) (n : Nat)
    (h : litWordMatcher pre suf l = some n) :
    ∃ w, l.take n = pre ++ w ++ suf ∧ w.all isWordChar = true ∧ 1 ≤ w.length := by
  unfold litWordMatcher at h
  by_cases hpre : isPre pre l = true
  · rw [if_pos hpre] at h
    set l1 := l.drop pre.length with hl1
    set w := l1.takeWhile isWordChar with hw
    by_cases hcond : 1 ≤ w.length ∧ isPre suf (l.drop (pre.length + w.length)) = true
    · rw [if_pos hcond] at h
      have hn : n = pre.length + w.length + suf.length := by
        injection h with h2
        omega
      refine ⟨w, ?_, takeWhile_all isWordChar l1, hcond.1⟩
      have hldecomp : l = pre ++ l1 := (isPre_append_drop pre l hpre).symm
      have hl1decomp : l1 = w ++ l1.drop w.length := by
        conv_lhs => rw [← List.take_append_drop w.length l1]
        rw [take_takeWhile_len]
      have hdrop : l.drop (pre.length + w.length) = l1.drop w.length := by
        rw [hldecomp, drop_append_len]
      have hl2decomp : l1.drop w.length =
          suf ++ (l1.drop w.length).drop suf.length := by
        rw [← hdrop]
        exact (isPre_append_drop suf _ hcond.2).symm
      rw [hn, hldecomp]
      rw [show pre.length + w.length + suf.length =
        pre.length + (w.length + suf.length) from by omega]
      rw [take_append_len]
      rw [hl1decomp, take_append_len]
      rw [hl2decomp]
      rw [show suf.length = suf.length + 0 from by omega, take_append_len]
      rw [List.take_zero, List.append_nil, List.append_assoc]
    · rw [if_neg hcond] at h
      cases h
  · rw [if_neg hpre] at h
    cases h

theorem word_not_brace (c : Char) (h : isWordChar c = true) :
    isBraceB c = false := by
  by_cases hb : isBraceB c = true
  · simp only [isBraceB, Bool.or_eq_true, decide_eq_true_eq] at hb
    rcases hb with hb | hb <;> (subst hb; exact absurd h (by decide))
  · simpa using hb

theorem braceSeq_all_word (w : List Char) (h : w.all isWordChar = true) :
    braceSeq w = [] := by
  induction w with
  | nil => rfl
  | cons c rest ih =>
    simp only [List.all_cons, Bool.and_eq_true] at h
    show List.filter isBraceB (c :: rest) = []
    rw [List.filter_cons]
    simp only [word_not_brace c h.1, Bool.false_eq_true, if_false]
    exact ih h.2

theorem braceSeq_take_litWord (pre suf repl l : List Char) (n : Nat)
    (hbr : braceSeq pre ++ braceSeq suf = braceSeq repl)
    (h : litWordMatcher pre suf l = some (n + 1)) :
    braceSeq (l.take (n + 1)) = braceSeq repl := by
  obtain ⟨w, hdec, hall, _⟩ := litWordMatcher_take pre suf l (n + 1) h
  rw [hdec, braceSeq_append, braceSeq_append, braceSeq_all_word w hall]
  simpa using hbr

theorem braceSeq_reSubImport (l : List Char) :
    braceSeq (reSubImport l) = braceSeq l :=
  braceSeq_reSubWith_aux (litWordMatcher importPre importSuf) importRepl
    (fun l2 n h => braceSeq_take_litWord importPre importSuf importRepl l2 n
      (by decide) h)
    l.length l (Nat.le_refl _)

theorem braceSeq_reSubCallback (l : List Char) :
    braceSeq (reSubCallback l) = braceSeq l :=
  braceSeq_reSubWith_aux (litWordMatcher callbackPre callbackSuf) callbackRepl
    (fun l2 n h => braceSeq_take_litWord callbackPre callbackSuf callbackRepl l2 n
      (by decide) h)
    l.length l (Nat.le_refl _)

theorem neverZero_rewrites (part : List Char) (h : NeverZero 1 part) :
    NeverZero 1 (reSubCallback (reSubImport part)) := by
  have h1 : NeverZero 1 (braceSeq part) :=
    (neverZero_braceSeq part 1 (by omega)).mp h
  have h2 : braceSeq (reSubCallback (reSubImport part)) = braceSeq part := by
    rw [braceSeq_reSubCallback, braceSeq_reSubImport]
  have h3 : NeverZero 1 (braceSeq (reSubCallback (reSubImport part))) := by
    rwa [h2]
  exact (neverZero_braceSeq _ 1 (by omega)).mpr h3

/-! ## The claims -/

/-- C1: for every text and start offset whose remaining text (the scanned
`part`) contains a balanced brace region — scanning with initial depth 1,
counting `'\x7b'` as +1 and `'\x7d'` as -1, the running depth reaches 0 at
some position — the inline balanced-block scan of `refactor_modules.py`
returns the offset of the first `'\x7d'` that brings the depth to 0, and
that offset is a valid index into the text. -/
theorem spec_C1_balanced_scan (part : List Char)
    (h : ∃ j, j < part.length ∧ depthAfter part (j + 1) = 0) :
    ∃ k, findEndIndex part = some k ∧ k < part.length ∧
      part.get? k = some '\x7d' ∧ depthAfter part (k + 1) = 0 ∧
      ∀ i, i < k → depthAfter part (i + 1) ≠ 0 := by
  rcases scanClose_spec part 1 (Nat.le_refl 1) with ⟨_, hall⟩ |
    ⟨k, hk, hkl, hget, hz, hmin⟩
  · obtain ⟨j, hj, hzero⟩ := h
    exact absurd hzero (by simpa [depthAfter] using hall j hj)
  · refine ⟨k, hk, hkl, hget, by simpa [depthAfter] using hz, ?_⟩
    intro i hi
    simpa [depthAfter] using hmin i hi

theorem spec_C1_witness :
    ∃ k, findEndIndex (("a\x7db").toList) = some k ∧
      k < (("a\x7db").toList).length ∧
      (("a\x7db").toList).get? k = some '\x7d' ∧
      depthAfter (("a\x7db").toList) (k + 1) = 0 ∧
      ∀ i, i < k → depthAfter (("a\x7db").toList) (i + 1) ≠ 0 :=
  spec_C1_balanced_scan (("a\x7db").toList) ⟨1, by decide, by decide⟩

/-- C2 counterexample: on the empty input the `slint::slint! \x7b` anchor is
not found, and `fix_tool_windows.py` terminates the whole run with process
exit status 1 (`exit(1)`), contradicting the claim that a pattern-not-found
condition never aborts a script run. -/
theorem spec_C2_counterexample :
    occursIn slintAnchor [] = false ∧ ftwFindMacro [] = Except.error 1 := by
  constructor
  · decide
  · rfl

/-- C2 (amended): in `add_logs.py` a missed rule records a not-found
diagnostic and the next rule is still attempted on the unchanged text, but
`fix_tool_windows.py` terminates the whole run with exit status 1 when its
`slint::slint! \x7b` anchor is missing, so a pattern miss does abort that
script. -/
theorem spec_C2_amended (c : List Char) (h1 : occursIn target1 c = false) :
    addLogs c = ((addLogsRule2 c).1, [nf1Msg, (addLogsRule2 c).2]) ∧
    (occursIn slintAnchor c = false → ftwFindMacro c = Except.error 1) := by
  have hr1 : addLogsRule1 c = (c, nf1Msg) := by simp [addLogsRule1, h1]
  constructor
  · simp [addLogs, hr1]
  · intro h2
    unfold ftwFindMacro
    rw [firstMatchIdx_none_of_not_occurs slintAnchor c h2]

theorem spec_C2_witness :
    addLogs (("x").toList) =
      ((addLogsRule2 (("x").toList)).1, [nf1Msg, (addLogsRule2 (("x").toList)).2]) ∧
    (occursIn slintAnchor (("x").toList) = false →
      ftwFindMacro (("x").toList) = Except.error 1) :=
  spec_C2_amended (("x").toList) (by decide)

/-- C4: applying a literal-substring rule whose target is absent leaves the
text byte-for-byte unchanged and reports the failure: rule 1 of
`add_logs.py` returns the input text with the not-found diagnostic, the
whole `add_logs.py` run writes back exactly the input when both targets are
absent, and `fix_macro_ident.py`'s replace is the identity when its pattern
is absent. -/
theorem spec_C4_missing_target (c d : List Char)
    (h1 : occursIn target1 c = false) (h2 : occursIn target2 c = false)
    (h3 : occursIn pathHeader d = false) :
    addLogsRule1 c = (c, nf1Msg) ∧
    addLogs c = (c, [nf1Msg, nf2Msg]) ∧
    fixMacroIdent d = d := by
  have hr1 : addLogsRule1 c = (c, nf1Msg) := by simp [addLogsRule1, h1]
  have hr2 : addLogsRule2 c = (c, nf2Msg) := by simp [addLogsRule2, h2]
  refine ⟨hr1, ?_, replaceSub_of_not_occurs pathHeader identHeader d h3⟩
  simp [addLogs, hr1, hr2]

theorem spec_C4_witness :
    addLogsRule1 (("x").toList) = ((("x").toList), nf1Msg) ∧
    addLogs (("x").toList) = ((("x").toList), [nf1Msg, nf2Msg]) ∧
    fixMacroIdent (("x").toList) = (("x").toList) :=
  spec_C4_missing_target (("x").toList) (("x").toList)
    (by decide) (by decide) (by decide)

/-- C5: for a text containing the `:ty` macro header and not the `:path`
header, running `fix_macro_path.py` then `fix_macro_ident.py` succeeds for
both (each finds its matcher) and yields the `:ident` header; in the other
order, `fix_macro_ident.py` has no effect and `fix_macro_path.py` succeeds,
and the final text equals the result of applying `fix_macro_path.py`
alone. -/
theorem spec_C5_rule_ordering (c : List Char)
    (h1 : occursIn tyHeader c = true) (h2 : occursIn pathHeader c = false) :
    occursIn pathHeader (fixMacroPath c) = true ∧
    occursIn identHeader (fixMacroIdent (fixMacroPath c)) = true ∧
    fixMacroIdent c = c ∧
    fixMacroPath (fixMacroIdent c) = fixMacroPath c := by
  have hty : tyHeader ≠ [] := by decide
  have hpath : pathHeader ≠ [] := by decide
  have hA : occursIn pathHeader (fixMacroPath c) = true :=
    occurs_repl_replaceSub tyHeader pathHeader c hty h1
  have hB : occursIn identHeader (fixMacroIdent (fixMacroPath c)) = true :=
    occurs_repl_replaceSub pathHeader identHeader (fixMacroPath c) hpath hA
  have hC : fixMacroIdent c = c :=
    replaceSub_of_not_occurs pathHeader identHeader c h2
  exact ⟨hA, hB, hC, by rw [hC]⟩

theorem spec_C5_witness :
    occursIn pathHeader (fixMacroPath tyHeader) = true ∧
    occursIn identHeader (fixMacroIdent (fixMacroPath tyHeader)) = true ∧
    fixMacroIdent tyHeader = tyHeader ∧
    fixMacroPath (fixMacroIdent tyHeader) = fixMacroPath tyHeader :=
  spec_C5_rule_ordering tyHeader (by decide) (by decide)

/-- C8 counterexample: text-mode round-tripping is not the identity: a text
consisting of a lone carriage return is read back as a newline by Python's
universal-newline translation, so `load(save(T)) ≠ T` for `T = "\r"`. -/
theorem spec_C8_counterexample :
    loadT (save (['\x0d'])) = (['\x0a']) ∧ (['\x0a']) ≠ (['\x0d'] : List Char) := by
  constructor
  · rfl
  · decide

/-- C8 (amended): for every text containing no carriage return, saving and
loading through the scripts' text-mode write/read pair returns the text
exactly (on a POSIX system with a lossless locale encoding). -/
theorem spec_C8_amended (t : List Char) (h : '\x0d' ∉ t) :
    loadT (save t) = t := by
  show loadT t = t
  induction t with
  | nil => rfl
  | cons c rest ih =>
    simp only [List.mem_cons, not_or] at h
    have hc : ¬ c = '\x0d' := fun hcc => h.1 hcc.symm
    have hstep : loadT (c :: rest) = c :: loadT rest := by
      rw [loadT.eq_def]
      split
      · rename_i h2
        exact (List.cons_ne_nil c rest h2).elim
      · rename_i c2 rest2 h2
        injection h2 with hc2 hrest2
        subst hc2
        subst hrest2
        rw [if_neg hc]
    rw [hstep, ih h.2]

theorem spec_C8_witness :
    loadT (save (("abc\n").toList)) = ("abc\n").toList :=
  spec_C8_amended (("abc\n").toList) (by decide)

theorem splitOnSub_some (sep l : List Char) (i : Nat) (hs : sep ≠ [])
    (h : firstMatchIdx sep l = some i) :
    splitOnSub sep l = l.take i :: splitOnSub sep (l.drop (i + sep.length)) := by
  rw [splitOnSub_eq sep l hs, h]

set_option maxRecDepth 10000

/-- C3 counterexample: an input whose slint part is brace-unbalanced and
contains an aliased import.  The run does not abort and the scan returns no
offset, but the step's text is NOT left unmodified: the fallback re-emits
the part only after the two `re.sub` rewrites already changed it, so the
claim's "the original prefix and part are re-emitted unchanged" is false. -/
theorem spec_C3_counterexample :
    NeverZero 1 (("import \x7b SlintThemeColors as H \x7d").toList) ∧
    refactorModules
        (("slint::slint! \x7bimport \x7b SlintThemeColors as H \x7d").toList) =
      ("slint::slint! \x7bimport \x7b SlintThemeColors \x7d").toList ∧
    ("slint::slint! \x7bimport \x7b SlintThemeColors \x7d").toList ≠
      ("slint::slint! \x7bimport \x7b SlintThemeColors as H \x7d").toList := by
  decide

/-- C3 (amended): for every part whose brace depth (initial depth 1) never
returns to 0 before end-of-text, the balanced-block extraction of
`refactor_modules.py` signals the unbalanced condition by returning no
offset (never an out-of-range or incorrect offset), the fallback re-emits
the `slint::slint! \x7b` prefix followed by the part as already modified by
the two import/callback regex rewrites (which preserve its brace sequence),
and only that rule's wrapping is abandoned: the loop continues with the
remaining parts. -/
theorem spec_C3_unbalanced (part : List Char) (t : List Char × List Char)
    (ts : List (List Char × List Char)) (ps : List (List Char))
    (h : NeverZero 1 part) :
    findEndIndex (reSubCallback (reSubImport part)) = none ∧
    processPart t.2 part = slintAnchor ++ reSubCallback (reSubImport part) ∧
    rmLoop (t :: ts) (part :: ps) =
      (slintAnchor ++ reSubCallback (reSubImport part)) ++ rmLoop ts ps := by
  have hq := neverZero_rewrites part h
  have hnone : findEndIndex (reSubCallback (reSubImport part)) = none :=
    (findEndIndex_none_iff _).mpr hq
  have hpp : processPart t.2 part =
      slintAnchor ++ reSubCallback (reSubImport part) := by
    simp only [processPart]
    rw [hnone]
  refine ⟨hnone, hpp, ?_⟩
  show processPart t.2 part ++ rmLoop ts ps = _
  rw [hpp]

theorem spec_C3_witness :
    findEndIndex (reSubCallback (reSubImport (("ab\x7b").toList))) = none ∧
    processPart (("hierarchy").toList) (("ab\x7b").toList) =
      slintAnchor ++ reSubCallback (reSubImport (("ab\x7b").toList)) ∧
    rmLoop [((("Hierarchy").toList), (("hierarchy").toList))]
        [(("ab\x7b").toList)] =
      (slintAnchor ++ reSubCallback (reSubImport (("ab\x7b").toList))) ++
        rmLoop [] [] :=
  spec_C3_unbalanced (("ab\x7b").toList)
    ((("Hierarchy").toList), (("hierarchy").toList)) [] [] (by decide)

/-- C7: the StructureTool-scoped rewriting step of `refactor_listviews.py`
changes no character of the text preceding the first occurrence of the
`export component StructureTool` anchor: the output is exactly that prefix,
one copy of the anchor, and the rewritten first post-anchor segment. -/
theorem spec_C7_prefix_untouched (content : List Char)
    (h : occursIn sAnchor content = true) :
    ∃ i p1, firstMatchIdx sAnchor content = some i ∧
      isPre sAnchor (content.drop i) = true ∧
      (∀ j, j < i → isPre sAnchor (content.drop j) = false) ∧
      structureToolStep content = content.take i ++ sAnchor ++ structRewrite p1 ∧
      (structureToolStep content).take i = content.take i := by
  obtain ⟨i, hi⟩ := firstMatchIdx_isSome_of_occurs sAnchor content h
  have hsa : sAnchor ≠ [] := by decide
  have hlt := firstMatchIdx_lt_length sAnchor content i hsa hi
  have hsplit := splitOnSub_some sAnchor content i hsa hi
  obtain ⟨p1, rest2, hinner⟩ :
      ∃ p1 rest2, splitOnSub sAnchor (content.drop (i + sAnchor.length)) =
        p1 :: rest2 := by
    cases hc : splitOnSub sAnchor (content.drop (i + sAnchor.length)) with
    | nil => exact absurd hc (splitOnSub_ne_nil sAnchor _)
    | cons a b => exact ⟨a, b, rfl⟩
  rw [hinner] at hsplit
  have hout : structureToolStep content =
      content.take i ++ sAnchor ++ structRewrite p1 := by
    unfold structureToolStep
    rw [hsplit]
  refine ⟨i, p1, hi, firstMatchIdx_isPre sAnchor content i hi,
    firstMatchIdx_min sAnchor content i hi, hout, ?_⟩
  rw [hout]
  have hlen : (content.take i).length = i := by
    rw [List.length_take]
    omega
  rw [List.append_assoc]
  have htl := List.take_left (content.take i) (sAnchor ++ structRewrite p1)
  rw [hlen] at htl
  exact htl

theorem spec_C7_witness :
    ∃ i p1,
      firstMatchIdx sAnchor (("A" ++ "export component StructureTool" ++ "B").toList) = some i ∧
      isPre sAnchor ((("A" ++ "export component StructureTool" ++ "B").toList).drop i) = true ∧
      (∀ j, j < i →
        isPre sAnchor ((("A" ++ "export component StructureTool" ++ "B").toList).drop j) = false) ∧
      structureToolStep (("A" ++ "export component StructureTool" ++ "B").toList) =
        (("A" ++ "export component StructureTool" ++ "B").toList).take i ++
          sAnchor ++ structRewrite p1 ∧
      (structureToolStep (("A" ++ "export component StructureTool" ++ "B").toList)).take i =
        (("A" ++ "export component StructureTool" ++ "B").toList).take i :=
  spec_C7_prefix_untouched (("A" ++ "export component StructureTool" ++ "B").toList)
    (by decide)

/-- C9: when the `export component StructureTool` anchor occurs two or more
times in the text reaching the split (so the split yields more than two
parts), the output of `refactor_listviews.py` consists only of the text
before the first occurrence, one copy of the anchor, and the rewritten
first post-anchor segment — everything from the second occurrence of the
anchor onward is silently discarded. -/
theorem spec_C9_discards_tail (content p0 p1 p2 : List Char)
    (ps : List (List Char))
    (h : splitOnSub sAnchor (hierarchyStep content) = p0 :: p1 :: p2 :: ps) :
    refactorListviews content = p0 ++ sAnchor ++ structRewrite p1 ∧
    hierarchyStep content =
      p0 ++ (sAnchor ++ (p1 ++ (sAnchor ++ joinWith sAnchor (p2 :: ps)))) := by
  constructor
  · show structureToolStep (hierarchyStep content) = _
    unfold structureToolStep
    rw [h]
  · have hj := join_split sAnchor (hierarchyStep content) (by decide)
    rw [h] at hj
    rw [joinWith_cons sAnchor p0 (p1 :: p2 :: ps) (by simp)] at hj
    rw [joinWith_cons sAnchor p1 (p2 :: ps) (by simp)] at hj
    rw [← hj]
    simp [List.append_assoc]

theorem spec_C9_witness :
    refactorListviews
        (("A" ++ "export component StructureTool" ++ "B" ++
          "export component StructureTool" ++ "C").toList) =
      ("A").toList ++ sAnchor ++ structRewrite (("B").toList) ∧
    hierarchyStep
        (("A" ++ "export component StructureTool" ++ "B" ++
          "export component StructureTool" ++ "C").toList) =
      ("A").toList ++ (sAnchor ++ ((("B").toList) ++
        (sAnchor ++ joinWith sAnchor ((("C").toList) :: [])))) :=
  spec_C9_discards_tail
    (("A" ++ "export component StructureTool" ++ "B" ++
      "export component StructureTool" ++ "C").toList)
    (("A").toList) (("B").toList) (("C").toList) [] (by decide)

/-- C6 counterexample: on the single-line input containing exactly the
macro text of the claim, the `fix_build.py` + `fix_conflicts.py` pipeline
does NOT produce the claimed output (whose closing brace is doubled to
`\x7d\x7d;`): `fix_build.py` doubles `\x7d;` only on a line consisting
solely of `\x7d;`, which this input does not have. -/
theorem spec_C6_counterexample :
    fixConflicts (fixBuild
      (("macro_rules! apply_theme \x7b ($window:expr, $colors:expr) => \x7b BODY \x7d; \x7d").toList)) ≠
    ("macro_rules! apply_theme \x7b ($window:expr, $colors:expr, $theme_type:ty) => \x7b\x7b BODY \x7d\x7d; \x7d").toList := by
  decide

/-- C6 (amended): on that input the pipeline inserts the `$theme_type:ty`
parameter and doubles the opening brace of the macro arm, but leaves the
closing `\x7d;` single, producing exactly this output. -/
theorem spec_C6_macro_pipeline :
    fixConflicts (fixBuild
      (("macro_rules! apply_theme \x7b ($window:expr, $colors:expr) => \x7b BODY \x7d; \x7d").toList)) =
    ("macro_rules! apply_theme \x7b ($window:expr, $colors:expr, $theme_type:ty) => \x7b\x7b BODY \x7d; \x7d").toList := by
  decide

theorem findSemiInLine_decomp :
    ∀ (s : List Char) (m : Nat), findSemiInLine s = some m →
      ∃ mid rest, s = mid ++ ';' :: rest ∧ mid.length = m ∧
        mid.all notSemiNl = true := by
  intro s
  induction s with
  | nil => intro m h; cases h
  | cons c r ih =>
    intro m h
    by_cases hc : c = ';'
    · subst hc
      simp only [findSemiInLine, if_pos rfl] at h
      injection h with h0
      refine ⟨[], r, rfl, ?_, rfl⟩
      simpa using h0
    · by_cases hn : c = '\x0a'
      · subst hn
        simp [findSemiInLine, hc] at h
      · simp [findSemiInLine, hc, hn] at h
        obtain ⟨m2, hm2, hm⟩ := h
        obtain ⟨mid, rest, hdec, hlen, hall⟩ := ih m2 hm2
        refine ⟨c :: mid, rest, by rw [hdec]; rfl, by simp [hlen]; omega, ?_⟩
        simp [List.all_cons, hall, notSemiNl, hc, hn]

theorem reSubMLF_cons_false (fuel : Nat) (c : Char) (rest : List Char) :
    reSubMLF (fuel + 1) false (c :: rest) =
      c :: reSubMLF fuel (c == '\x0a') rest := rfl

theorem reSubMLF_cons_true_none (fuel : Nat) (c : Char) (rest : List Char)
    (h : tryMatchAt (c :: rest) = none) :
    reSubMLF (fuel + 1) true (c :: rest) =
      c :: reSubMLF fuel (c == '\x0a') rest := by
  show (match tryMatchAt (c :: rest) with
    | some n =>
      if 1 ≤ n then
        reSubMLF fuel ((c :: rest).getD (n - 1) ' ' == '\x0a')
          ((c :: rest).drop n)
      else c :: reSubMLF fuel (c == '\x0a') rest
    | none => c :: reSubMLF fuel (c == '\x0a') rest) = _
  rw [h]

theorem reSubMLF_cons_true_small (fuel : Nat) (c : Char) (rest : List Char)
    (h : tryMatchAt (c :: rest) = some 0) :
    reSubMLF (fuel + 1) true (c :: rest) =
      c :: reSubMLF fuel (c == '\x0a') rest := by
  show (match tryMatchAt (c :: rest) with
    | some n =>
      if 1 ≤ n then
        reSubMLF fuel ((c :: rest).getD (n - 1) ' ' == '\x0a')
          ((c :: rest).drop n)
      else c :: reSubMLF fuel (c == '\x0a') rest
    | none => c :: reSubMLF fuel (c == '\x0a') rest) = _
  rw [h]
  show (if 1 ≤ (0 : Nat) then
      reSubMLF fuel ((c :: rest).getD (0 - 1) ' ' == '\x0a')
        ((c :: rest).drop 0)
    else c :: reSubMLF fuel (c == '\x0a') rest) = _
  rw [if_neg (by omega)]

theorem reSubMLF_cons_true_match (fuel : Nat) (c : Char) (rest : List Char)
    (n : Nat) (h : tryMatchAt (c :: rest) = some n) (hn : 1 ≤ n) :
    reSubMLF (fuel + 1) true (c :: rest) =
      reSubMLF fuel ((c :: rest).getD (n - 1) ' ' == '\x0a')
        ((c :: rest).drop n) := by
  show (match tryMatchAt (c :: rest) with
    | some n =>
      if 1 ≤ n then
        reSubMLF fuel ((c :: rest).getD (n - 1) ' ' == '\x0a')
          ((c :: rest).drop n)
      else c :: reSubMLF fuel (c == '\x0a') rest
    | none => c :: reSubMLF fuel (c == '\x0a') rest) = _
  rw [h]
  show (if 1 ≤ n then
      reSubMLF fuel ((c :: rest).getD (n - 1) ' ' == '\x0a')
        ((c :: rest).drop n)
    else c :: reSubMLF fuel (c == '\x0a') rest) = _
  rw [if_pos hn]

theorem removeLogs_sublist_aux :
    ∀ (fuel : Nat) (b : Bool) (l : List Char), (reSubMLF fuel b l).Sublist l := by
  intro fuel
  induction fuel with
  | zero => intro b l; exact List.Sublist.refl l
  | succ fuel ih =>
    intro b l
    cases l with
    | nil => exact List.Sublist.refl []
    | cons c rest =>
      cases b with
      | false =>
        rw [reSubMLF_cons_false]
        exact List.Sublist.cons₂ c (ih _ rest)
      | true =>
        cases htm : tryMatchAt (c :: rest) with
        | none =>
          rw [reSubMLF_cons_true_none fuel c rest htm]
          exact List.Sublist.cons₂ c (ih _ rest)
        | some n =>
          cases n with
          | zero =>
            rw [reSubMLF_cons_true_small fuel c rest htm]
            exact List.Sublist.cons₂ c (ih _ rest)
          | succ n2 =>
            rw [reSubMLF_cons_true_match fuel c rest (n2 + 1) htm (by omega)]
            exact (ih _ _).trans (List.drop_sublist _ _)

theorem tryMatchAt_shape (l : List Char) (n : Nat)
    (h : tryMatchAt l = some n) :
    ∃ w mid nl rest, l = w ++ printlnPat ++ mid ++ [';'] ++ nl ++ rest ∧
      n = w.length + printlnPat.length + mid.length + 1 + nl.length ∧
      w.all isPyWS = true ∧ mid.all notSemiNl = true ∧
      nl.all isCRLF = true := by
  simp only [tryMatchAt] at h
  by_cases hp : isPre printlnPat (l.drop (l.takeWhile isPyWS).length) = true
  · rw [if_pos hp] at h
    cases hsf : findSemiInLine
        (l.drop ((l.takeWhile isPyWS).length + printlnPat.length)) with
    | none => rw [hsf] at h; cases h
    | some m =>
      rw [hsf] at h
      injection h with hn
      set w := l.takeWhile isPyWS with hw
      set l1 := l.drop w.length with hl1
      have hldec : l = w ++ l1 := by
        rw [hl1, hw]
        conv_lhs => rw [← List.take_append_drop (l.takeWhile isPyWS).length l]
        rw [take_takeWhile_len]
      set l2 := l1.drop printlnPat.length with hl2
      have hl1dec : l1 = printlnPat ++ l2 := (isPre_append_drop _ _ hp).symm
      have hdrop2 : l.drop (w.length + printlnPat.length) = l2 := by
        rw [hldec, drop_append_len, hl2]
      rw [hdrop2] at hsf
      obtain ⟨mid, l3, hl2dec, hmid, hmidall⟩ := findSemiInLine_decomp l2 m hsf
      set nl := l3.takeWhile isCRLF with hnl
      set rest := l3.drop nl.length with hrest
      have hl3dec : l3 = nl ++ rest := by
        rw [hrest, hnl]
        conv_lhs => rw [← List.take_append_drop (l3.takeWhile isCRLF).length l3]
        rw [take_takeWhile_len]
      have hdrop3 : l.drop (w.length + printlnPat.length + m + 1) = l3 := by
        rw [show w.length + printlnPat.length + m + 1 =
          w.length + (printlnPat.length + (mid.length + 1)) from by omega]
        rw [hldec, drop_append_len, hl1dec, drop_append_len, hl2dec]
        exact drop_append_len mid (';' :: l3) 1
      rw [hdrop3] at hn
      rw [← hnl] at hn
      refine ⟨w, mid, nl, rest, ?_, ?_, takeWhile_all isPyWS l,
        hmidall, takeWhile_all isCRLF l3⟩
      · rw [hldec, hl1dec, hl2dec, hl3dec]
        simp [List.append_assoc]
      · omega
  · rw [if_neg hp] at h
    cases h

/-- C10 counterexample: `remove_logs.py` does not leave every
non-`println!` line unchanged: the `\s*` of its regex also consumes the
newline of a blank line directly preceding a `println!` line, so the blank
line is deleted together with the `println!` line, and the output is not
the one the claim predicts. -/
theorem spec_C10_counterexample :
    removeLogs (("log::info!(x);\n\nprintln!(y);\n").toList) =
      ("log::info!(x);\n").toList ∧
    removeLogs (("log::info!(x);\n\nprintln!(y);\n").toList) ≠
      ("log::info!(x);\n\n").toList := by
  decide

/-- C10 (amended): `remove_logs.py` deletes only substrings that consist of
a whitespace run beginning at a line start (which, since `\s` also matches
newlines, may swallow whole whitespace-only lines before the `println!`),
then `println!`, then the shortest run of non-newline characters up to a
`;`, then a run of line breaks; every character outside the deleted matches
— in particular every `log::info!` line not preceded-and-matched this way,
and the lines of a `println!` call with no `;` on its first line — appears
in the output unchanged and in its original relative order. -/
theorem spec_C10_deleted_shape :
    (∀ l n, tryMatchAt l = some n →
      ∃ w mid nl rest, l = w ++ printlnPat ++ mid ++ [';'] ++ nl ++ rest ∧
        n = w.length + printlnPat.length + mid.length + 1 + nl.length ∧
        w.all isPyWS = true ∧ mid.all notSemiNl = true ∧
        nl.all isCRLF = true) ∧
    (∀ content, (removeLogs content).Sublist content) :=
  ⟨tryMatchAt_shape, fun content => removeLogs_sublist_aux content.length true content⟩

theorem spec_C10_witness :
    (∃ w mid nl rest,
      ("  println!(a);\n").toList =
        w ++ printlnPat ++ mid ++ [';'] ++ nl ++ rest ∧
      15 = w.length + printlnPat.length + mid.length + 1 + nl.length ∧
      w.all isPyWS = true ∧ mid.all notSemiNl = true ∧
      nl.all isCRLF = true) ∧
    (removeLogs (("x\n").toList)).Sublist (("x\n").toList) :=
  ⟨spec_C10_deleted_shape.1 (("  println!(a);\n").toList) 15 (by decide),
   spec_C10_deleted_shape.2 (("x\n").toList)⟩

end HerdingCats
